import Mathlib

/-!
# hdpwm: the fixed-size buffer codec and the database-path prompt

A shallow embedding of `src/crypto/structs.cpp` (`serialize`, `deserialize`) and of
`get_db_path` from `src/cli/screens.cpp`, followed by the properties proved about them.

Conventions of the embedding.

* A C++ `char` is a Lean `Char` and a `std::string` is a `List Char`; every byte string is
  such a list, so a statement over all lists covers all C++ strings.
* The fixed-size arrays (`Seed`, `EncryptedSeed`, `PasswordHash`, `ChildDerivationData`) come
  from `src/crypto/structs.h`.  Their elements are unsigned 8-bit integers and their length
  is the constant `RARR::Size`; here a buffer is a `List Nat` whose elements are below 256
  where a statement says so, and the length is the parameter `Size`.
* The loop counters are `unsigned int`, taken to be 32 bits wide: natural numbers reduced
  modulo `2 ^ 32` after every addition.  The statements on the loops ask for a `Size` for
  which the counter does not wrap; every array that holds a seed, a hash or a key is far
  below that.  Sizes of type `size_t` are natural numbers: no object is large enough for
  `Size * 2` to wrap.
* A loop is a recursion on a bound on the number of times its condition is evaluated; the
  result `none` means that the loop has not been left within the bound.
* A thrown `std::runtime_error` is `Except.error` carrying the text of `what()`.
-/

namespace crypto

/-! ## `<charconv>` -/

/-- The values of `std::errc` that `std::to_chars` and `std::from_chars` report;
`ok` is the value-initialised `std::errc()`. -/
inductive errc where
  | ok
  | invalid_argument
  | result_out_of_range
  | value_too_large
  deriving DecidableEq, Repr

/-- Result of `std::to_chars`: `ptr` is the offset one past the last character written. -/
structure to_chars_result where
  ptr : Nat
  ec : errc
  deriving DecidableEq, Repr

/-- Result of `std::from_chars`: `ptr` is the offset of the first character not matched. -/
structure from_chars_result where
  ptr : Nat
  ec : errc
  deriving DecidableEq, Repr

/-- Largest value of the element type of the buffers (`unsigned char`). -/
def UCHAR_MAX : Nat := 255

/-- The call `std::to_chars(first, last, value, base)` for a non-negative `value`, on the buffer
`[first, last)` given by its current contents `buf`.  The digits of `value` are written
most significant first, lowercase, without leading zeros; when they do not fit the result
is `value_too_large`.  The second component is the buffer afterwards. -/
def to_chars (buf : List Char) (value : Nat) (base : Nat) : to_chars_result × List Char :=
  let digits := Nat.toDigits base value
  if digits.length ≤ buf.length then
    (⟨digits.length, errc.ok⟩, digits ++ buf.drop digits.length)
  else
    (⟨buf.length, errc.value_too_large⟩, buf)

/-- Value of a character as a digit, as `std::from_chars` reads it: `0`-`9`, then the
letters of either case counting from ten. -/
def digit_value (c : Char) : Option Nat :=
  let n := c.toNat
  if 48 ≤ n ∧ n ≤ 57 then some (n - 48)
  else if 97 ≤ n ∧ n ≤ 122 then some (n - 87)
  else if 65 ≤ n ∧ n ≤ 90 then some (n - 55)
  else none

/-- Whether `c` is a digit in the given base. -/
def is_digit_in (base : Nat) (c : Char) : Bool :=
  match digit_value c with
  | some d => decide (d < base)
  | none => false

/-- The call `std::from_chars(first, last, value, base)` for an `unsigned char` `value`, on the range
`[first, last)` given by its characters.  The longest prefix of digits is read (no sign, no
prefix, no leading blanks).  With no digit the result is `invalid_argument`, with a number
above `UCHAR_MAX` it is `result_out_of_range`, and in both cases `value` is left as it was;
otherwise `value` becomes the number read.  The second component is `value` afterwards. -/
def from_chars (range : List Char) (value : Nat) (base : Nat) : from_chars_result × Nat :=
  let digits := range.takeWhile (is_digit_in base)
  if digits.isEmpty then
    (⟨0, errc.invalid_argument⟩, value)
  else
    let parsed := digits.foldl (fun acc c => acc * base + (digit_value c).getD 0) 0
    if parsed > UCHAR_MAX then
      (⟨digits.length, errc.result_out_of_range⟩, value)
    else
      (⟨digits.length, errc.ok⟩, parsed)

/-! ## `serialize` -/

/-- Text of the exception `serialize` throws when `std::to_chars` fails. -/
def serialize_error : String := "could not deserialize"

/-- The `for` loop of `serialize`, entered with the counter `i` and the string `rs` built so
far.  The first argument bounds the number of evaluations of `i < data.size()`. -/
def serialize_loop (data : List Nat) : Nat → Nat → List Char → Option (Except String (List Char))
  | 0, _, _ => none
  | fuel + 1, i, rs =>
    if h : i < data.length then
      let tmp_arr : List Char := ['0', '0']
      let r := to_chars tmp_arr data[i] 16
      if r.1.ec ≠ errc.ok then
        some (.error serialize_error)
      else
        let tmp_arr := r.2
        let rs :=
          if data[i] < 16 then (rs ++ ['0']) ++ [tmp_arr.getD 0 '0']
          else (rs ++ [tmp_arr.getD 0 '0']) ++ [tmp_arr.getD 1 '0']
        serialize_loop data fuel ((i + 1) % 2 ^ 32) rs
    else
      some (.ok rs)

/-- The function `serialize(data)`: the loop started at `i = 0` with the empty string. -/
def serialize (data : List Nat) : Option (Except String (List Char)) :=
  serialize_loop data (data.length + 1) 0 []

/-! ## `deserialize` -/

/-- Text of the exception for a string of the wrong length. -/
def length_error : String :=
  "invalid string passed to deserialization (length does not match)"

/-- Text of the exception for a pair that `std::from_chars` rejects. -/
def character_error : String :=
  "invalid string passed to deserialization (invalid character)"

/-- The `for` loop of `deserialize`, entered with the counter `i` and the array `rarr`.
The first argument bounds the number of evaluations of `i + 2 <= hexstr.size()`; the sum
`i + 2` is an `unsigned int`. -/
def deserialize_loop (hexstr : List Char) :
    Nat → Nat → List Nat → Option (Except String (List Nat))
  | 0, _, _ => none
  | fuel + 1, i, rarr =>
    if (i + 2) % 2 ^ 32 ≤ hexstr.length then
      let r := from_chars ((hexstr.drop i).take 2) (rarr.getD (i / 2) 0) 16
      if r.1.ec ≠ errc.ok then
        some (.error character_error)
      else
        deserialize_loop hexstr fuel ((i + 2) % 2 ^ 32) (rarr.set (i / 2) r.2)
    else
      some (.ok rarr)

/-- The function `deserialize<RARR>(hexstr)` with `Size = RARR::Size`.  The local `RARR rarr;` is not
initialised: `rarr` is what it holds when the loop starts, any list of `Size` bytes. -/
def deserialize (Size : Nat) (rarr : List Nat) (hexstr : List Char) :
    Option (Except String (List Nat)) :=
  if hexstr.length ≠ Size * 2 then
    some (.error length_error)
  else
    deserialize_loop hexstr (hexstr.length + 1) 0 rarr

end crypto

namespace cli

/-! ## `get_db_path` -/

/-- The parts of `std::filesystem` that `get_db_path` calls, on paths in native format:
the state of the file system as the throwing overloads of `exists` and `is_directory`
report it, and the lexical `path::parent_path`.  A query answers `some` of its result, or
`none` when it throws `std::filesystem::filesystem_error` (a name that is too long, a
directory that may not be searched, a loop of links).  They belong to the standard library
and are parameters here. -/
structure std_filesystem where
  fs_exists : List Char → Option Bool
  is_directory : List Char → Option Bool
  parent_path : List Char → List Char

/-- The call `std::string::substr(pos)`: the characters from `pos` on; `none` stands for the
`std::out_of_range` thrown when `pos` is beyond the size of the string. -/
def substr (s : List Char) (pos : Nat) : Option (List Char) :=
  if pos > s.length then none else some (s.drop pos)

/-- The call `std::string::substr(pos, count)`, with `none` as for `substr`. -/
def substr_count (s : List Char) (pos count : Nat) : Option (List Char) :=
  if pos > s.length then none else some ((s.drop pos).take count)

/-- The `operator/` of `std::filesystem::path` on a POSIX system: an absolute right-hand side
replaces the left-hand side; otherwise a separator is added when the left-hand side has a
filename (it is not empty and does not end in a separator) and the right-hand side is
appended. -/
def path_append (lhs rhs : List Char) : List Char :=
  if rhs.head? = some '/' then rhs
  else if lhs ≠ [] ∧ lhs.getLast? ≠ some '/' then lhs ++ '/' :: rhs
  else lhs ++ rhs

/-- How a call of `get_db_path` ends: it returns a `std::optional` path, after showing
an error message or not; or `substr` throws `std::out_of_range`; or a query of the file
system throws `std::filesystem::filesystem_error`, which nothing catches; or a path is
built from the null pointer that `getenv` returns for an unset variable, which is
undefined. -/
inductive get_db_path_result where
  | returned (error_shown : Option String) (value : Option (List Char))
  | out_of_range
  | filesystem_error
  | undefined
  deriving DecidableEq, Repr

/-- The message shown when something exists at the path. -/
def file_exists_message : String := "This file already exists, refusing to delete it."

/-- The message shown when the parent of the path is no directory. -/
def no_parent_message : String := "The parent directory does not exist, create it first."

/-- The text the input starts from when the user leaves it empty. -/
def default_path_value : List Char := "~/.hdpwm".toList

/-- Lines 59 to 67 of `screens.cpp`: the path that `get_db_path` goes on to check, from
the text the user typed and the value of `getenv("HOME")` (`none` for a null pointer).
The result `none` is `std::out_of_range` and `some none` is the undefined case; the two
operands of `/` are evaluated in no fixed order, and with both at fault the call is
undefined. -/
def db_path_candidate (HOME : Option (List Char)) (input_value : List Char) :
    Option (Option (List Char)) :=
  let path_value := if input_value.isEmpty then default_path_value else input_value
  if path_value.length > 0 ∧ substr_count path_value 0 1 = some ['~'] then
    match HOME with
    | none => some none
    | some home =>
      match substr path_value 2 with
      | none => none
      | some rest => some (some (path_append home rest))
  else
    some (some path_value)

/-- The function `get_db_path()`.  The flag `went_back` tells whether
`path_input.process()` returned `input_action_result::BACK`, and `input_value` is
`path_input.value` afterwards; `HOME` is what `getenv("HOME")` returns. -/
def get_db_path (fs : std_filesystem) (HOME : Option (List Char)) (went_back : Bool)
    (input_value : List Char) : get_db_path_result :=
  if went_back then
    .returned none none
  else
    match db_path_candidate HOME input_value with
    | none => .out_of_range
    | some none => .undefined
    | some (some path) =>
      match fs.fs_exists path with
      | none => .filesystem_error
      | some true => .returned (some file_exists_message) none
      | some false =>
        match fs.is_directory (fs.parent_path path) with
        | none => .filesystem_error
        | some false => .returned (some no_parent_message) none
        | some true => .returned none (some path)

/-- The path of the file `name` directly inside the directory `dir`: the two joined by
one separator, which `dir` may already end in. -/
def file_in_directory (dir name : List Char) : List Char :=
  if dir.getLast? = some '/' then dir ++ name else dir ++ '/' :: name

/-- A file system for the examples: the only thing that exists is the directory
`/home/u`; a query on a path of more than 255 characters throws; the parent of a path is
what precedes its last separator. -/
def example_fs : std_filesystem where
  fs_exists := fun p => if p.length > 255 then none else some (decide (p = "/home/u".toList))
  is_directory := fun p =>
    if p.length > 255 then none else some (decide (p = "/home/u".toList))
  parent_path := fun p => ((p.reverse.dropWhile (fun c => c != '/')).drop 1).reverse

end cli

namespace crypto

/-! ## Reference functions for the statements -/

/-- The lowercase hexadecimal digit of `d`, for `d < 16`. -/
def lower_hex_digit (d : Nat) : Char :=
  "0123456789abcdef".toList.getD d '0'

/-- The text a buffer is expected to serialise to: for every byte its high nibble, then
its low nibble. -/
def encode : List Nat → List Char
  | [] => []
  | b :: bs => lower_hex_digit (b / 16) :: lower_hex_digit (b % 16) :: encode bs

/-- Whether `c` is a hexadecimal digit for `std::from_chars`. -/
def is_hex_digit (c : Char) : Bool := is_digit_in 16 c

/-- Value of a hexadecimal digit (zero for any other character). -/
def hexval (c : Char) : Nat := (digit_value c).getD 0

/-- The characters that are hexadecimal digits. -/
def hex_digits : List Char := "0123456789abcdefABCDEF".toList

/-- What `std::from_chars` reads from the two characters `a`, `b` when `a` is a digit. -/
def pair_value (a b : Char) : Nat :=
  if is_hex_digit b then 16 * hexval a + hexval b else hexval a

/-- Pairwise decoding of a string, two characters at a time from the left; a trailing
single character is not looked at. -/
def decode_pairs : List Char → Except String (List Nat)
  | a :: b :: rest =>
    if is_hex_digit a then
      match decode_pairs rest with
      | .ok bs => .ok (pair_value a b :: bs)
      | .error e => .error e
    else .error character_error
  | _ => .ok []

/-- The array after the loop, given what `decode_pairs` makes of the rest of the string:
the first `k` elements of `rarr` followed by the decoded bytes. -/
def loop_result (rarr : List Nat) (k : Nat) :
    Except String (List Nat) → Except String (List Nat)
  | .ok bs => .ok (rarr.take k ++ bs)
  | .error e => .error e

/-! ## Lemmas on `serialize` -/

set_option maxRecDepth 100000 in
theorem to_chars_byte : ∀ b, b < 256 →
    (to_chars ['0', '0'] b 16).1.ec = errc.ok ∧
    (if b < 16 then [ '0', (to_chars ['0', '0'] b 16).2.getD 0 '0']
      else [(to_chars ['0', '0'] b 16).2.getD 0 '0', (to_chars ['0', '0'] b 16).2.getD 1 '0'])
      = [lower_hex_digit (b / 16), lower_hex_digit (b % 16)] := by
  decide

theorem serialize_loop_eq (data : List Nat) (hb : ∀ b ∈ data, b < 256)
    (hN : data.length < 2 ^ 32) :
    ∀ (m i : Nat) (rs : List Char) (fuel : Nat), i + m = data.length → m < fuel →
      serialize_loop data fuel i rs = some (.ok (rs ++ encode (data.drop i))) := by
  intro m
  induction m with
  | zero =>
    intro i rs fuel hi hf
    obtain ⟨f, rfl⟩ : ∃ f, fuel = f + 1 := ⟨fuel - 1, by omega⟩
    have hlen : ¬ i < data.length := by omega
    have hdrop : data.drop i = [] := List.drop_eq_nil_of_le (by omega)
    simp [serialize_loop, hlen, hdrop, encode]
  | succ m ih =>
    intro i rs fuel hi hf
    obtain ⟨f, rfl⟩ : ∃ f, fuel = f + 1 := ⟨fuel - 1, by omega⟩
    have hlen : i < data.length := by omega
    have hbyte : data[i] < 256 := hb _ (List.getElem_mem hlen)
    obtain ⟨hec, hpush⟩ := to_chars_byte data[i] hbyte
    have hmod : (i + 1) % 2 ^ 32 = i + 1 := Nat.mod_eq_of_lt (by omega)
    have hdrop : data.drop i = data[i] :: data.drop (i + 1) := List.drop_eq_getElem_cons hlen
    rw [serialize_loop, dif_pos hlen]
    simp only [hec, ne_eq, not_true_eq_false, if_false, hmod]
    rw [ih (i + 1) _ f (by omega) (by omega), hdrop, encode]
    by_cases h16 : data[i] < 16
    · rw [if_pos h16] at hpush
      rw [if_pos h16]
      simp only [List.cons.injEq] at hpush
      simp [← hpush.1, ← hpush.2.1]
    · rw [if_neg h16] at hpush
      rw [if_neg h16]
      simp only [List.cons.injEq] at hpush
      simp [← hpush.1, ← hpush.2.1]

theorem serialize_eq_encode (data : List Nat) (hb : ∀ b ∈ data, b < 256)
    (hN : data.length < 2 ^ 32) : serialize data = some (.ok (encode data)) := by
  have h := serialize_loop_eq data hb hN data.length 0 [] (data.length + 1) (by omega) (by omega)
  simpa [serialize] using h

theorem encode_length (data : List Nat) : (encode data).length = 2 * data.length := by
  induction data with
  | nil => rfl
  | cons b bs ih => simp [encode, ih]; omega

theorem encode_getElem? (data : List Nat) :
    ∀ i b, data[i]? = some b →
      (encode data)[2 * i]? = some (lower_hex_digit (b / 16)) ∧
      (encode data)[2 * i + 1]? = some (lower_hex_digit (b % 16)) := by
  induction data with
  | nil => intro i b h; simp at h
  | cons x xs ih =>
    intro i b h
    cases i with
    | zero =>
      simp at h
      subst h
      simp [encode]
    | succ i =>
      simp at h
      have := ih i b h
      have e1 : 2 * (i + 1) = (2 * i) + 1 + 1 := by omega
      rw [e1]
      simpa [encode] using this

/-! ## Lemmas on `deserialize` -/

theorem hexval_lt_of_is_hex_digit (c : Char) (h : is_hex_digit c = true) : hexval c < 16 := by
  unfold is_hex_digit is_digit_in at h
  unfold hexval
  cases hd : digit_value c with
  | none => simp [hd] at h
  | some d => simpa [hd] using h

theorem from_chars_pair (a b : Char) (v : Nat) :
    from_chars [a, b] v 16 =
      if is_hex_digit a then
        (⟨if is_hex_digit b then 2 else 1, errc.ok⟩, pair_value a b)
      else (⟨0, errc.invalid_argument⟩, v) := by
  by_cases ha : is_hex_digit a = true
  · have hva := hexval_lt_of_is_hex_digit a ha
    by_cases hb : is_hex_digit b = true
    · have hvb := hexval_lt_of_is_hex_digit b hb
      have ha2 : is_digit_in 16 a = true := ha
      have hb2 : is_digit_in 16 b = true := hb
      have hle : ¬ (hexval a * 16 + hexval b > UCHAR_MAX) := by
        simp only [UCHAR_MAX]; omega
      have hfold : ((0 * 16 + (digit_value a).getD 0) * 16 + (digit_value b).getD 0)
          = hexval a * 16 + hexval b := by simp [hexval]
      simp only [from_chars, List.takeWhile, ha2, hb2, List.isEmpty_cons, List.foldl_cons,
        List.foldl_nil, hfold, hle, ha, hb, pair_value, if_true, if_false, List.length_cons,
        List.length_nil, Bool.false_eq_true]
      simp; omega
    · have ha2 : is_digit_in 16 a = true := ha
      have hb2 : is_digit_in 16 b = false := by simpa [is_hex_digit] using hb
      have hle : ¬ (hexval a > UCHAR_MAX) := by
        simp only [UCHAR_MAX]; omega
      have hfold : (0 * 16 + (digit_value a).getD 0) = hexval a := by simp [hexval]
      simp only [from_chars, List.takeWhile, ha2, hb2, List.isEmpty_cons, List.foldl_cons,
        List.foldl_nil, hfold, hle, ha, hb, pair_value, if_true, if_false, List.length_cons,
        List.length_nil, Bool.false_eq_true]
  · have ha2 : is_digit_in 16 a = false := by simpa [is_hex_digit] using ha
    simp [from_chars, List.takeWhile, ha2, ha]

theorem drop_take_two (s : List Char) (i : Nat) (h : i + 2 ≤ s.length) :
    ∃ a b, s[i]? = some a ∧ s[i + 1]? = some b ∧ s.drop i = a :: b :: s.drop (i + 2) := by
  have h0 : i < s.length := by omega
  have h1 : i + 1 < s.length := by omega
  refine ⟨s[i], s[i + 1], ?_, ?_, ?_⟩
  · exact List.getElem?_eq_getElem h0
  · exact List.getElem?_eq_getElem h1
  · rw [List.drop_eq_getElem_cons h0, List.drop_eq_getElem_cons h1]

theorem take_succ_set (rarr : List Nat) (k v : Nat) (h : k < rarr.length) :
    (rarr.set k v).take (k + 1) = rarr.take k ++ [v] := by
  rw [List.set_eq_take_append_cons_drop, if_pos h]
  have hl : (List.take k rarr).length = k := by simp; omega
  rw [List.take_append_eq_append_take, hl]
  simp

theorem deserialize_loop_eq (hexstr : List Char) (hN : hexstr.length + 2 < 2 ^ 32) :
    ∀ (m k : Nat) (rarr : List Nat) (fuel : Nat),
      2 * (k + m) = hexstr.length → rarr.length = k + m → m < fuel →
      deserialize_loop hexstr fuel (2 * k) rarr
        = some (loop_result rarr k (decode_pairs (hexstr.drop (2 * k)))) := by
  intro m
  induction m with
  | zero =>
    intro k rarr fuel hk hr hf
    obtain ⟨f, rfl⟩ : ∃ f, fuel = f + 1 := ⟨fuel - 1, by omega⟩
    have hmod : (2 * k + 2) % 2 ^ 32 = 2 * k + 2 := Nat.mod_eq_of_lt (by omega)
    have hcond : ¬ (2 * k + 2 ≤ hexstr.length) := by omega
    have hdrop : hexstr.drop (2 * k) = [] := List.drop_eq_nil_of_le (by omega)
    have htake : rarr.take k = rarr := List.take_of_length_le (by omega)
    rw [deserialize_loop, hmod, if_neg hcond, hdrop]
    simp [decode_pairs, loop_result, htake]
  | succ m ih =>
    intro k rarr fuel hk hr hf
    obtain ⟨f, rfl⟩ : ∃ f, fuel = f + 1 := ⟨fuel - 1, by omega⟩
    have hmod : (2 * k + 2) % 2 ^ 32 = 2 * k + 2 := Nat.mod_eq_of_lt (by omega)
    have hcond : 2 * k + 2 ≤ hexstr.length := by omega
    obtain ⟨a, b, -, -, hdrop⟩ := drop_take_two hexstr (2 * k) hcond
    have hdiv : 2 * k / 2 = k := by omega
    have hnext : 2 * k + 2 = 2 * (k + 1) := by omega
    rw [deserialize_loop, hmod, if_pos hcond, hdrop]
    simp only [List.take, from_chars_pair, hdiv]
    by_cases ha : is_hex_digit a = true
    · simp only [ha, if_true, ne_eq, not_true_eq_false, if_false]
      rw [hnext, ih (k + 1) _ f (by omega) (by simp; omega) (by omega)]
      rw [← hnext, decode_pairs, if_pos ha]
      have hset := take_succ_set rarr k (pair_value a b) (by omega)
      cases decode_pairs (List.drop (2 * k + 2) hexstr) with
      | ok bs => simp [loop_result, hset]
      | error e => simp [loop_result]
    · simp [ha, decode_pairs, loop_result]

theorem deserialize_eq_decode_pairs (Size : Nat) (rarr : List Nat) (hexstr : List Char)
    (hlen : hexstr.length = 2 * Size) (hN : 2 * Size + 2 < 2 ^ 32)
    (hr : rarr.length = Size) :
    deserialize Size rarr hexstr = some (decode_pairs hexstr) := by
  have h := deserialize_loop_eq hexstr (by omega) Size 0 rarr (hexstr.length + 1)
    (by omega) (by omega) (by omega)
  have hne : ¬ (hexstr.length ≠ Size * 2) := by omega
  rw [deserialize, if_neg hne]
  simp only [Nat.mul_zero, List.drop_zero] at h
  rw [h]
  cases decode_pairs hexstr with
  | ok bs => simp [loop_result]
  | error e => simp [loop_result]

/-! ## Lemmas on the pairwise decoding -/

set_option maxRecDepth 100000 in
theorem lower_hex_digit_spec : ∀ d, d < 16 →
    is_hex_digit (lower_hex_digit d) = true ∧ hexval (lower_hex_digit d) = d := by
  decide

theorem decode_pairs_encode (data : List Nat) (hb : ∀ b ∈ data, b < 256) :
    decode_pairs (encode data) = .ok data := by
  induction data with
  | nil => rfl
  | cons b bs ih =>
    have hlt : b < 256 := hb b (List.mem_cons_self _ _)
    obtain ⟨hhi, hvhi⟩ := lower_hex_digit_spec (b / 16) (by omega)
    obtain ⟨hlo, hvlo⟩ := lower_hex_digit_spec (b % 16) (by omega)
    have hrest := ih (fun x hx => hb x (List.mem_cons_of_mem _ hx))
    have hval : pair_value (lower_hex_digit (b / 16)) (lower_hex_digit (b % 16)) = b := by
      rw [pair_value, if_pos hlo, hvhi, hvlo]; omega
    rw [encode, decode_pairs, if_pos hhi, hrest, hval]

theorem decode_pairs_ok : ∀ (s : List Char) (bs : List Nat), decode_pairs s = .ok bs →
    bs.length = s.length / 2 ∧
    ∀ i a b, s[2 * i]? = some a → s[2 * i + 1]? = some b →
      is_hex_digit a = true ∧ bs[i]? = some (pair_value a b)
  | [], bs, h => by
    simp [decode_pairs] at h
    subst h
    simp
  | [c], bs, h => by
    simp [decode_pairs] at h
    subst h
    refine ⟨by simp, ?_⟩
    intro i a b _ h1
    simp at h1
  | x :: y :: rest, bs, h => by
    rw [decode_pairs] at h
    by_cases hx : is_hex_digit x = true
    · rw [if_pos hx] at h
      cases hrest : decode_pairs rest with
      | error e => simp [hrest] at h
      | ok tl =>
        simp [hrest] at h
        subst h
        obtain ⟨hl, hi⟩ := decode_pairs_ok rest tl hrest
        refine ⟨by simp [hl]; omega, ?_⟩
        intro i a b h0 h1
        cases i with
        | zero =>
          simp at h0 h1
          subst h0 h1
          exact ⟨hx, by simp⟩
        | succ i =>
          have e1 : 2 * (i + 1) = (2 * i) + 1 + 1 := by omega
          rw [e1] at h0 h1
          simp at h0 h1
          simpa using hi i a b h0 h1
    · rw [if_neg hx] at h
      simp at h

theorem decode_pairs_error : ∀ (s : List Char) (e : String), decode_pairs s = .error e →
    e = character_error ∧
    ∃ i a, 2 * i + 1 < s.length ∧ s[2 * i]? = some a ∧ is_hex_digit a = false
  | [], e, h => by simp [decode_pairs] at h
  | [c], e, h => by simp [decode_pairs] at h
  | x :: y :: rest, e, h => by
    rw [decode_pairs] at h
    by_cases hx : is_hex_digit x = true
    · rw [if_pos hx] at h
      cases hrest : decode_pairs rest with
      | ok tl => simp [hrest] at h
      | error e2 =>
        simp [hrest] at h
        subst h
        obtain ⟨he, i, a, hlt, hget, hbad⟩ := decode_pairs_error rest e2 hrest
        refine ⟨he, i + 1, a, by simp; omega, ?_, hbad⟩
        have e1 : 2 * (i + 1) = (2 * i) + 1 + 1 := by omega
        rw [e1]
        simpa using hget
    · rw [if_neg hx] at h
      simp at h
      refine ⟨h.symm, 0, x, by simp, by simp, by simpa using hx⟩

/-! ## What a hexadecimal digit is -/

theorem is_hex_digit_of_mem : ∀ c ∈ hex_digits, is_hex_digit c = true := by
  decide

theorem mem_of_is_hex_digit (c : Char) (h : is_hex_digit c = true) : c ∈ hex_digits := by
  have hc : c = Char.ofNat c.toNat := (Char.ofNat_toNat c).symm
  have hrange : (48 ≤ c.toNat ∧ c.toNat ≤ 57) ∨ (97 ≤ c.toNat ∧ c.toNat ≤ 102) ∨
      (65 ≤ c.toNat ∧ c.toNat ≤ 70) := by
    unfold is_hex_digit is_digit_in digit_value at h
    simp only at h
    split_ifs at h with h1 h2 h3
    · exact Or.inl h1
    · simp at h
      exact Or.inr (Or.inl ⟨h2.1, by omega⟩)
    · simp at h
      exact Or.inr (Or.inr ⟨h3.1, by omega⟩)
  rw [hc]
  generalize c.toNat = n at hrange
  rcases hrange with ⟨h1, h2⟩ | ⟨h1, h2⟩ | ⟨h1, h2⟩ <;> interval_cases n <;> decide

/-- The digits of `std::from_chars` in base 16 are exactly `0`-`9`, `a`-`f`, `A`-`F`. -/
theorem is_hex_digit_iff (c : Char) : is_hex_digit c = true ↔ c ∈ hex_digits :=
  ⟨mem_of_is_hex_digit c, is_hex_digit_of_mem c⟩

/-- The values of the hexadecimal digits, in the order of `hex_digits`. -/
theorem hexval_table : hex_digits.map hexval =
    [0, 1, 2, 3, 4, 5, 6, 7, 8, 9, 10, 11, 12, 13, 14, 15, 10, 11, 12, 13, 14, 15] := by
  decide

/-- The lowercase digits, in order. -/
theorem lower_hex_digit_table :
    (List.range 16).map lower_hex_digit = "0123456789abcdef".toList := by
  decide

theorem lower_hex_digit_mem : ∀ d, d < 16 → lower_hex_digit d ∈ "0123456789abcdef".toList := by
  decide

theorem encode_chars (data : List Nat) (hb : ∀ b ∈ data, b < 256) :
    ∀ c ∈ encode data, c ∈ "0123456789abcdef".toList := by
  induction data with
  | nil => intro c hc; simp [encode] at hc
  | cons b bs ih =>
    intro c hc
    have hlt : b < 256 := hb b (List.mem_cons_self _ _)
    simp only [encode, List.mem_cons] at hc
    rcases hc with rfl | rfl | hc
    · exact lower_hex_digit_mem _ (by omega)
    · exact lower_hex_digit_mem _ (by omega)
    · exact ih (fun x hx => hb x (List.mem_cons_of_mem _ hx)) c hc

/-- A string of `2 * Size` characters has the first character of one of its `Size` pairs
outside the hexadecimal digits exactly when its pairwise decoding fails, and the failure
is the invalid-character one. -/
theorem decode_pairs_error_iff (Size : Nat) (s : List Char) (hlen : s.length = 2 * Size) :
    decode_pairs s = .error character_error ↔
      ∃ i a, i < Size ∧ s[2 * i]? = some a ∧ is_hex_digit a = false := by
  constructor
  · intro h
    obtain ⟨-, i, a, hlt, hget, hbad⟩ := decode_pairs_error s _ h
    exact ⟨i, a, by omega, hget, hbad⟩
  · rintro ⟨i, a, hi, hget, hbad⟩
    cases hdec : decode_pairs s with
    | error e => rw [(decode_pairs_error s e hdec).1]
    | ok bs =>
      have h1 : 2 * i + 1 < s.length := by omega
      have hgood := ((decode_pairs_ok s bs hdec).2 i a s[2 * i + 1] hget
        (List.getElem?_eq_getElem h1)).1
      rw [hbad] at hgood
      exact absurd hgood (by decide)

/-! ## The codec: properties of `serialize` and `deserialize` -/

/-- C1 (round trip).  For every buffer `B` of `Size` unsigned 8-bit bytes, `serialize B`
returns a string `s`, and `deserialize<Size>` on `s` returns a buffer equal to `B`, whatever
the array held before the loop.  `Size` is below `2 ^ 31 - 1`, so that the `unsigned int`
counters of the two loops do not wrap. -/
theorem deserialize_serialize_roundtrip (Size : Nat) (B rarr : List Nat)
    (hB : B.length = Size) (hbytes : ∀ b ∈ B, b < 256) (hsize : 2 * Size + 2 < 2 ^ 32)
    (hr : rarr.length = Size) :
    ∃ s, serialize B = some (.ok s) ∧ deserialize Size rarr s = some (.ok B) := by
  refine ⟨encode B, serialize_eq_encode B hbytes (by omega), ?_⟩
  rw [deserialize_eq_decode_pairs Size rarr (encode B) (by rw [encode_length, hB]) hsize hr,
    decode_pairs_encode B hbytes]

/-- Witness of C1 on a buffer of four bytes. -/
theorem deserialize_serialize_roundtrip_witness :
    ∃ s, serialize [0, 9, 171, 255] = some (.ok s) ∧
      deserialize 4 [1, 2, 3, 4] s = some (.ok [0, 9, 171, 255]) :=
  deserialize_serialize_roundtrip 4 [0, 9, 171, 255] [1, 2, 3, 4] rfl (by decide)
    (by norm_num) rfl

/-- C2 (length check).  For every string whose length is not `2 * Size`, whatever its
characters, `deserialize<Size>` throws the length-mismatch error: no buffer is returned,
neither from a prefix of a longer string nor from a shorter string padded. -/
theorem deserialize_length_mismatch (Size : Nat) (rarr : List Nat) (hexstr : List Char)
    (hlen : hexstr.length ≠ 2 * Size) :
    deserialize Size rarr hexstr = some (.error length_error) := by
  have hne : hexstr.length ≠ Size * 2 := by omega
  rw [deserialize, if_pos hne]

/-- Witness of C2: a string that is too long and has a character that is no digit. -/
theorem deserialize_length_mismatch_witness :
    deserialize 1 [0] ['0', 'g', '1'] = some (.error length_error) :=
  deserialize_length_mismatch 1 [0] ['0', 'g', '1'] (by decide)

/-- C3, evaluated where it fails: the string `1g` has the right length for one byte and
its second character is no hexadecimal digit, yet `deserialize<1>` returns the buffer
holding `1` and throws nothing. -/
theorem deserialize_one_g :
    is_hex_digit 'g' = false ∧ deserialize 1 [0] ['1', 'g'] = some (.ok [1]) :=
  ⟨by decide, rfl⟩

/-- C4 (shape of the output).  For every buffer `B` of `Size` unsigned 8-bit bytes,
`serialize B` returns, without throwing, a string of exactly `2 * Size` characters in
which character `2 * i` is the lowercase hexadecimal digit of `B[i] / 16` and character
`2 * i + 1` that of `B[i] % 16`; every character is one of `0`-`9`, `a`-`f`.  `Size` is below
`2 ^ 32`, so that the `unsigned int` counter does not wrap. -/
theorem serialize_spec (Size : Nat) (B : List Nat)
    (hB : B.length = Size) (hbytes : ∀ b ∈ B, b < 256) (hsize : Size < 2 ^ 32) :
    ∃ s, serialize B = some (.ok s) ∧ s.length = 2 * Size ∧
      (∀ i b, B[i]? = some b →
        s[2 * i]? = some (lower_hex_digit (b / 16)) ∧
        s[2 * i + 1]? = some (lower_hex_digit (b % 16))) ∧
      (∀ c ∈ s, c ∈ "0123456789abcdef".toList) :=
  ⟨encode B, serialize_eq_encode B hbytes (by omega), by rw [encode_length, hB],
    encode_getElem? B, encode_chars B hbytes⟩

/-- Witness of C4 on a buffer of four bytes. -/
theorem serialize_spec_witness :
    ∃ s, serialize [0, 9, 171, 255] = some (.ok s) ∧ s.length = 2 * 4 ∧
      (∀ i b, [0, 9, 171, 255][i]? = some b →
        s[2 * i]? = some (lower_hex_digit (b / 16)) ∧
        s[2 * i + 1]? = some (lower_hex_digit (b % 16))) ∧
      (∀ c ∈ s, c ∈ "0123456789abcdef".toList) :=
  serialize_spec 4 [0, 9, 171, 255] rfl (by decide) (by norm_num)

/-- C5 (decoding of hexadecimal text).  For every string of exactly `2 * Size` characters,
all hexadecimal digits, `deserialize<Size>` returns a buffer of `Size` bytes whose byte `i`
is `16 * hexval s[2 * i] + hexval s[2 * i + 1]`, whatever the array held before the loop.
`Size` is below `2 ^ 31 - 1`, so that the `unsigned int` counter does not wrap. -/
theorem deserialize_hex (Size : Nat) (rarr : List Nat) (hexstr : List Char)
    (hlen : hexstr.length = 2 * Size) (hhex : ∀ c ∈ hexstr, is_hex_digit c = true)
    (hsize : 2 * Size + 2 < 2 ^ 32) (hr : rarr.length = Size) :
    ∃ B, deserialize Size rarr hexstr = some (.ok B) ∧ B.length = Size ∧
      ∀ i a b, hexstr[2 * i]? = some a → hexstr[2 * i + 1]? = some b →
        B[i]? = some (16 * hexval a + hexval b) := by
  rw [deserialize_eq_decode_pairs Size rarr hexstr hlen hsize hr]
  cases hdec : decode_pairs hexstr with
  | error e =>
    obtain ⟨-, i, a, -, hget, hbad⟩ := decode_pairs_error hexstr e hdec
    have hmem : a ∈ hexstr := List.getElem?_mem hget
    rw [hhex a hmem] at hbad
    exact absurd hbad (by decide)
  | ok bs =>
    obtain ⟨hl, hi⟩ := decode_pairs_ok hexstr bs hdec
    refine ⟨bs, rfl, by omega, ?_⟩
    intro i a b h0 h1
    have hb : is_hex_digit b = true := hhex b (List.getElem?_mem h1)
    rw [(hi i a b h0 h1).2, pair_value, if_pos hb]

/-- Witness of C5 on a string of three pairs, of both cases. -/
theorem deserialize_hex_witness :
    ∃ B, deserialize 3 [7, 7, 7] ['0', 'a', 'F', 'f', '1', '0'] = some (.ok B) ∧ B.length = 3 ∧
      ∀ i a b, ['0', 'a', 'F', 'f', '1', '0'][2 * i]? = some a →
        ['0', 'a', 'F', 'f', '1', '0'][2 * i + 1]? = some b →
        B[i]? = some (16 * hexval a + hexval b) :=
  deserialize_hex 3 [7, 7, 7] ['0', 'a', 'F', 'f', '1', '0'] rfl (by decide) (by norm_num) rfl

/-- C8 (what `deserialize` accepts).  For every string of exactly `2 * Size` characters,
`deserialize<Size>` throws, and then the invalid-character error, exactly when the first
character of one of the `Size` pairs is no hexadecimal digit.  Otherwise it returns a
buffer of `Size` bytes, and a pair whose second character is no hexadecimal digit
contributes the value of its first character alone, a number below 16.  `Size` is below
`2 ^ 31 - 1`, so that the `unsigned int` counter does not wrap. -/
theorem deserialize_acceptance (Size : Nat) (rarr : List Nat) (hexstr : List Char)
    (hlen : hexstr.length = 2 * Size) (hsize : 2 * Size + 2 < 2 ^ 32)
    (hr : rarr.length = Size) :
    ((∃ e, deserialize Size rarr hexstr = some (.error e)) ↔
      ∃ i a, i < Size ∧ hexstr[2 * i]? = some a ∧ is_hex_digit a = false) ∧
    ((∃ i a, i < Size ∧ hexstr[2 * i]? = some a ∧ is_hex_digit a = false) →
      deserialize Size rarr hexstr = some (.error character_error)) ∧
    ((¬ ∃ i a, i < Size ∧ hexstr[2 * i]? = some a ∧ is_hex_digit a = false) →
      ∃ B, deserialize Size rarr hexstr = some (.ok B) ∧ B.length = Size ∧
        ∀ i a b, hexstr[2 * i]? = some a → hexstr[2 * i + 1]? = some b →
          is_hex_digit b = false → B[i]? = some (hexval a) ∧ hexval a < 16) := by
  rw [deserialize_eq_decode_pairs Size rarr hexstr hlen hsize hr]
  have hiff := decode_pairs_error_iff Size hexstr hlen
  refine ⟨?_, ?_, ?_⟩
  · constructor
    · rintro ⟨e, he⟩
      have hdec : decode_pairs hexstr = .error e := by simpa using he
      rw [(decode_pairs_error hexstr e hdec).1] at hdec
      exact hiff.mp hdec
    · intro h
      exact ⟨character_error, by rw [hiff.mpr h]⟩
  · intro h
    rw [hiff.mpr h]
  · intro hnone
    cases hdec : decode_pairs hexstr with
    | error e =>
      have hdec2 := hdec
      rw [(decode_pairs_error hexstr e hdec).1] at hdec2
      exact absurd (hiff.mp hdec2) hnone
    | ok bs =>
      obtain ⟨hl, hi⟩ := decode_pairs_ok hexstr bs hdec
      refine ⟨bs, rfl, by omega, ?_⟩
      intro i a b h0 h1 hb
      obtain ⟨ha, hv⟩ := hi i a b h0 h1
      refine ⟨?_, hexval_lt_of_is_hex_digit a ha⟩
      rw [hv, pair_value, hb]
      simp

/-- Witness of C8: in `1g0f` the second character of the first pair is no digit; the
string is accepted and the first byte is the value of `1`. -/
theorem deserialize_acceptance_witness :
    ∃ B, deserialize 2 [0, 0] ['1', 'g', '0', 'f'] = some (.ok B) ∧ B.length = 2 ∧
      ∀ i a b, ['1', 'g', '0', 'f'][2 * i]? = some a → ['1', 'g', '0', 'f'][2 * i + 1]? = some b →
        is_hex_digit b = false → B[i]? = some (hexval a) ∧ hexval a < 16 :=
  (deserialize_acceptance 2 [0, 0] ['1', 'g', '0', 'f'] rfl (by norm_num) rfl).2.2 (by
    rintro ⟨i, a, hi, hget, hbad⟩
    have hmem : a ∈ ['1', 'g', '0', 'f'].take 1 ++ ['1', 'g', '0', 'f'].drop 2 := by
      obtain rfl | rfl : i = 0 ∨ i = 1 := by omega
      · simp at hget; simp [← hget]
      · simp at hget; simp [← hget]
    have hall : ∀ c ∈ ['1', 'g', '0', 'f'].take 1 ++ ['1', 'g', '0', 'f'].drop 2,
        is_hex_digit c = true := by decide
    rw [hall a hmem] at hbad
    exact absurd hbad (by decide))

end crypto

namespace cli

/-! ## The database path: properties of `get_db_path` -/

theorem get_db_path_returned (fs : std_filesystem) (HOME : Option (List Char))
    (went_back : Bool) (input_value : List Char) (shown : Option String) (p : List Char)
    (h : get_db_path fs HOME went_back input_value = .returned shown (some p)) :
    db_path_candidate HOME input_value = some (some p) ∧
      fs.fs_exists p = some false ∧ fs.is_directory (fs.parent_path p) = some true := by
  unfold get_db_path at h
  cases went_back with
  | true => simp at h
  | false =>
    simp only [Bool.false_eq_true, if_false] at h
    cases hc : db_path_candidate HOME input_value with
    | none => simp [hc] at h
    | some c =>
      cases c with
      | none => simp [hc] at h
      | some q =>
        simp only [hc] at h
        cases he : fs.fs_exists q with
        | none => simp [he] at h
        | some e =>
          cases e with
          | true => simp [he] at h
          | false =>
            cases hd : fs.is_directory (fs.parent_path q) with
            | none => simp [he, hd] at h
            | some d =>
              cases d with
              | false => simp [he, hd] at h
              | true =>
                simp [he, hd] at h
                obtain ⟨-, rfl⟩ := h
                exact ⟨rfl, he, hd⟩

theorem get_db_path_checked (fs : std_filesystem) (HOME : Option (List Char))
    (input_value candidate : List Char)
    (hc : db_path_candidate HOME input_value = some (some candidate)) :
    get_db_path fs HOME false input_value =
      match fs.fs_exists candidate with
      | none => .filesystem_error
      | some true => .returned (some file_exists_message) none
      | some false =>
        match fs.is_directory (fs.parent_path candidate) with
        | none => .filesystem_error
        | some false => .returned (some no_parent_message) none
        | some true => .returned none (some candidate) := by
  unfold get_db_path
  simp only [Bool.false_eq_true, if_false, hc]

/-- C6 (no path that would overwrite).  For every input of the user, every value of `HOME`
and every state of the file system, the states in which a query throws included: when
`get_db_path` returns a path, it is the path it checked, `exists` answered that nothing is
at it and `is_directory` answered that its parent is a directory; and when something
exists at the path it checks, or the parent of that path is no directory, no path is
returned.  In more detail, once the input is confirmed: with something at the path the
call returns empty after the message that the file exists; with nothing at the path and
a parent that is no directory it returns empty after the message on the parent; and when
the query on the path throws, or the one on its parent after nothing was found at the
path, the call ends in that exception. -/
theorem get_db_path_safe (fs : std_filesystem) (HOME : Option (List Char))
    (went_back : Bool) (input_value : List Char) :
    (∀ shown p, get_db_path fs HOME went_back input_value = .returned shown (some p) →
      db_path_candidate HOME input_value = some (some p) ∧
        fs.fs_exists p = some false ∧ fs.is_directory (fs.parent_path p) = some true) ∧
    (∀ candidate, db_path_candidate HOME input_value = some (some candidate) →
      fs.fs_exists candidate = some true ∨
        fs.is_directory (fs.parent_path candidate) = some false →
      ∀ shown p, get_db_path fs HOME went_back input_value ≠ .returned shown (some p)) ∧
    (∀ candidate, db_path_candidate HOME input_value = some (some candidate) →
      went_back = false →
      (fs.fs_exists candidate = some true →
        get_db_path fs HOME went_back input_value
          = .returned (some file_exists_message) none) ∧
      (fs.fs_exists candidate = some false →
        fs.is_directory (fs.parent_path candidate) = some false →
        get_db_path fs HOME went_back input_value
          = .returned (some no_parent_message) none) ∧
      (fs.fs_exists candidate = none ∨
          (fs.fs_exists candidate = some false ∧
            fs.is_directory (fs.parent_path candidate) = none) →
        get_db_path fs HOME went_back input_value = .filesystem_error)) := by
  refine ⟨fun shown p h => get_db_path_returned fs HOME went_back input_value shown p h, ?_, ?_⟩
  · intro candidate hc hbad shown p h
    obtain ⟨hp, he, hd⟩ := get_db_path_returned fs HOME went_back input_value shown p h
    rw [hc] at hp
    obtain rfl : candidate = p := by simpa using hp
    rcases hbad with hb | hb
    · rw [he] at hb
      exact absurd hb (by decide)
    · rw [hd] at hb
      exact absurd hb (by decide)
  · intro candidate hc hw
    subst hw
    rw [get_db_path_checked fs HOME input_value candidate hc]
    refine ⟨?_, ?_, ?_⟩
    · intro he
      rw [he]
    · intro he hd
      rw [he, hd]
    · rintro (he | ⟨he, hd⟩)
      · rw [he]
      · rw [he, hd]

/-- Witness of C6: with `HOME` set to the existing directory `/home/u` and a path typed
in full, the path returned does not exist and its parent is a directory. -/
theorem get_db_path_safe_witness :
    get_db_path example_fs (some "/home/u".toList) false "/home/u/db".toList
      = .returned none (some "/home/u/db".toList) ∧
    db_path_candidate (some "/home/u".toList) "/home/u/db".toList
      = some (some "/home/u/db".toList) ∧
    example_fs.fs_exists "/home/u/db".toList = some false ∧
    example_fs.is_directory (example_fs.parent_path "/home/u/db".toList) = some true :=
  ⟨by decide, (get_db_path_safe example_fs (some "/home/u".toList) false
    "/home/u/db".toList).1 none "/home/u/db".toList (by decide)⟩

set_option maxRecDepth 100000 in
/-- A name of 256 characters without a separator: its parent, the empty path, is no
directory, the query on the name itself throws, and the call ends in that exception
without returning. -/
theorem get_db_path_name_too_long :
    example_fs.is_directory (example_fs.parent_path (List.replicate 256 'a')) = some false ∧
    get_db_path example_fs (some "/home/u".toList) false (List.replicate 256 'a')
      = .filesystem_error :=
  ⟨rfl, rfl⟩

theorem path_append_home (home : List Char) (hne : home ≠ []) :
    path_append home ".hdpwm".toList = file_in_directory home ".hdpwm".toList := by
  unfold path_append file_in_directory
  have h1 : ¬ (".hdpwm".toList.head? = some '/') := by decide
  rw [if_neg h1]
  by_cases hl : home.getLast? = some '/'
  · simp [hl]
  · simp [hl, hne]

theorem db_path_candidate_default (home : List Char) :
    db_path_candidate (some home) [] = some (some (path_append home ".hdpwm".toList)) := by
  rfl

/-- C7 (default path).  When `HOME` is set to a non-empty directory name and the user
confirms the prompt with an empty input, the path that `get_db_path` checks is the file
`.hdpwm` directly inside that directory; a path returned is that path, and it is returned
when `exists` answers that nothing is at it and `is_directory` that the directory is
one. -/
theorem get_db_path_default (fs : std_filesystem) (home : List Char) (hne : home ≠ []) :
    db_path_candidate (some home) [] = some (some (file_in_directory home ".hdpwm".toList)) ∧
    (∀ shown p, get_db_path fs (some home) false [] = .returned shown (some p) →
      p = file_in_directory home ".hdpwm".toList) ∧
    (fs.fs_exists (file_in_directory home ".hdpwm".toList) = some false →
      fs.is_directory (fs.parent_path (file_in_directory home ".hdpwm".toList)) = some true →
      get_db_path fs (some home) false []
        = .returned none (some (file_in_directory home ".hdpwm".toList))) := by
  have hc : db_path_candidate (some home) []
      = some (some (file_in_directory home ".hdpwm".toList)) := by
    rw [db_path_candidate_default, path_append_home home hne]
  refine ⟨hc, ?_, ?_⟩
  · intro shown p h
    have := (get_db_path_returned fs (some home) false [] shown p h).1
    rw [hc] at this
    simpa using this.symm
  · intro he hd
    rw [get_db_path_checked fs (some home) [] _ hc, he, hd]

/-- Witness of C7: with `HOME` set to `/home/u`, an existing directory without the file,
the empty input gives `/home/u/.hdpwm`. -/
theorem get_db_path_default_witness :
    get_db_path example_fs (some "/home/u".toList) false []
      = .returned none (some "/home/u/.hdpwm".toList) :=
  (get_db_path_default example_fs "/home/u".toList (by decide)).2.2 (by decide) (by decide)

end cli
